import Mathlib

/-!
# SerialVESC: angle-frame conversion, velocity estimate and PID dispatch

A shallow embedding of `src/SerialVESC.cpp`.

* `float` values are modelled by exact rationals `ℚ`, `int` values by `ℤ`.
* The object state is the record `VESC`; every method is a function on it.
* The transport sink `vesc_uart` is modelled by the trace of the commands it
  was handed (oldest first).
* The position controller class (`pos_controller`) is not part of the
  sources; its interface is the parameter `PosControllerOps`.
* `utils_norm_angle` and `utils_angle_difference` live in `utils.h`, which is
  not part of the sources; they are modelled from the specification text.
-/

namespace SerialVESC

/-! ## Helpers from `utils.h` -/

/-- Modelled from the spec: `utils_norm_angle` (declared in `utils.h`, absent
from the sources). "Reduce any real value modulo 360 into the canonical range
[0,360)", as a single modulo-based computation that handles negative inputs
and large magnitudes. The C++ call site updates its argument in place; here
the new value is returned. -/
def utils_norm_angle (x : ℚ) : ℚ :=
  x - 360 * (⌊x / 360⌋ : ℤ)

/-- Modelled from the spec: `utils_angle_difference` (declared in `utils.h`,
absent from the sources). "Computes the signed shortest-path difference
`b - a` on the circle, result always in (-180, 180]. Implementation: compute
`(b - a) mod 360`, then if result > 180 subtract 360, if ≤ -180 add 360." -/
def utils_angle_difference (a b : ℚ) : ℚ :=
  let d := utils_norm_angle (b - a)
  if d > 180 then d - 360
  else if d ≤ -180 then d + 360
  else d

/-! ## Object state -/

/-- Commands accepted by the transport sink: `vesc_uart.set_position` and
`vesc_uart.set_current`. -/
inductive Cmd where
  | set_position (pos : ℚ)
  | set_current (current : ℚ)
  deriving DecidableEq, Repr

/-- Interface of the position controller class behind `pos_controller`
(its definition is not part of the sources): construction from two gains,
`compute_command(error, velocity)`, which returns the command and may update
the controller, and `set_gains(kP, kD)`. -/
structure PosControllerOps (κ : Type) where
  construct : ℚ → ℚ → κ
  compute_command : κ → ℚ → ℚ → ℚ × κ
  set_gains : κ → ℚ → ℚ → κ

/-- Data members of the `VESC` class used by `SerialVESC.cpp`; `vesc_uart` is
the trace of commands handed to the transport, oldest first.
`VESC_ENCODER_PERIOD` only ever holds the `int` the constructor is given, and
`encoder_direction` the `int` given to `attach`. -/
structure VESC (κ : Type) where
  encoder_offset : ℚ
  encoder_direction : ℤ
  max_current : ℚ
  time_last_angle_read : ℤ
  vesc_angle : ℚ
  true_degps : ℚ
  VESC_ENCODER_PERIOD : ℤ
  pos_controller : κ
  vesc_uart : List Cmd

variable {κ : Type}

/-! ## Private methods -/

/-- `VESC::vesc_to_normalized_angle`: encoder frame to robot frame. -/
def vesc_to_normalized_angle (self : VESC κ) (raw_angle : ℚ) : ℚ :=
  let normalized := raw_angle
  let normalized :=
    if self.encoder_direction = -1 then utils_angle_difference 0 normalized
    else normalized
  let normalized := normalized + self.encoder_offset
  utils_norm_angle normalized

/-- `VESC::normalized_to_vesc_angle`: robot frame to encoder frame. -/
def normalized_to_vesc_angle (self : VESC κ) (normalized_angle : ℚ) : ℚ :=
  let raw_angle := normalized_angle
  let raw_angle := raw_angle - self.encoder_offset
  let raw_angle :=
    if self.encoder_direction = -1 then utils_angle_difference 0 raw_angle
    else raw_angle
  utils_norm_angle raw_angle

/-- `VESC::_send_position`: hands `set_position(pos)` to the transport. -/
def _send_position (self : VESC κ) (pos : ℚ) : VESC κ :=
  { self with vesc_uart := self.vesc_uart ++ [Cmd.set_position pos] }

/-- `VESC::_send_current`: hands `set_current(current)` to the transport. -/
def _send_current (self : VESC κ) (current : ℚ) : VESC κ :=
  { self with vesc_uart := self.vesc_uart ++ [Cmd.set_current current] }

/-- `VESC::_send_position_pid_constants`: every statement of its body is
commented out in the source, so the call has no effect. -/
def _send_position_pid_constants (self : VESC κ) (_kp _ki _kd _pos : ℚ) : VESC κ :=
  self

/-! ## Public methods -/

/-- `VESC::VESC`: the constructor. `mem` stands for the storage the object is
built in: the members the constructor does not assign (`encoder_offset`,
`encoder_direction`, `max_current`) keep whatever `mem` holds. -/
def VESC.construct (pc : PosControllerOps κ) (mem : VESC κ)
    (vesc_encoder_reading_period : ℤ) : VESC κ :=
  { mem with
    pos_controller := pc.construct 0 0
    vesc_uart := []
    time_last_angle_read := 0
    vesc_angle := 0
    true_degps := 0
    VESC_ENCODER_PERIOD := vesc_encoder_reading_period }

/-- `VESC::attach`. -/
def attach (self : VESC κ) (_encoder_offset : ℚ) (_encoder_direction : ℤ)
    (_max_current : ℚ) : VESC κ :=
  { self with
    encoder_offset := _encoder_offset
    encoder_direction := _encoder_direction
    max_current := _max_current }

/-- `VESC::write`. -/
def write (self : VESC κ) (deg : ℚ) : VESC κ :=
  _send_position self (normalized_to_vesc_angle self deg)

/-- `VESC::write_current`. -/
def write_current (self : VESC κ) (current : ℚ) : VESC κ :=
  _send_current self current

/-- `VESC::write_pos_and_pid_gains`. -/
def write_pos_and_pid_gains (self : VESC κ) (kp ki kd pos : ℚ) : VESC κ :=
  _send_position_pid_constants self kp ki kd (normalized_to_vesc_angle self pos)

/-- `VESC::read`: the returned value; the object is not modified. -/
def read (self : VESC κ) : ℚ :=
  vesc_to_normalized_angle self self.vesc_angle

/-- `VESC::update_angle`. -/
def update_angle (self : VESC κ) (angle : ℚ) : VESC κ :=
  let corrected := utils_norm_angle angle
  let temp := (self.VESC_ENCODER_PERIOD : ℚ) * utils_angle_difference corrected self.vesc_angle
  { self with true_degps := temp, vesc_angle := corrected }

/-- `VESC::pid_update`. -/
def pid_update (pc : PosControllerOps κ) (self : VESC κ) (set_point : ℚ) : VESC κ :=
  let error := utils_angle_difference self.vesc_angle set_point
  let r := pc.compute_command self.pos_controller error self.true_degps
  let cur_command := self.max_current * r.1
  _send_current { self with pos_controller := r.2 } cur_command

/-- `VESC::pid_update_normalized`. -/
def pid_update_normalized (pc : PosControllerOps κ) (self : VESC κ) (set_point : ℚ) : VESC κ :=
  pid_update pc self (normalized_to_vesc_angle self set_point)

/-- `VESC::set_pid_gains`. -/
def set_pid_gains (pc : PosControllerOps κ) (self : VESC κ) (kP kD : ℚ) : VESC κ :=
  { self with pos_controller := pc.set_gains self.pos_controller kP kD }

/-! ## Call sequences -/

/-- One call of a public method, with its arguments. -/
inductive Call where
  | attach (_encoder_offset : ℚ) (_encoder_direction : ℤ) (_max_current : ℚ)
  | update_angle (angle : ℚ)
  | read
  | write (deg : ℚ)
  | write_current (current : ℚ)
  | write_pos_and_pid_gains (kp ki kd pos : ℚ)
  | pid_update (set_point : ℚ)
  | pid_update_normalized (set_point : ℚ)
  | set_pid_gains (kP kD : ℚ)

/-- The object after one call. -/
def Call.run (pc : PosControllerOps κ) (self : VESC κ) : Call → VESC κ
  | .attach o d m => SerialVESC.attach self o d m
  | .update_angle a => SerialVESC.update_angle self a
  | .read => self
  | .write deg => SerialVESC.write self deg
  | .write_current c => SerialVESC.write_current self c
  | .write_pos_and_pid_gains kp ki kd pos => SerialVESC.write_pos_and_pid_gains self kp ki kd pos
  | .pid_update sp => SerialVESC.pid_update pc self sp
  | .pid_update_normalized sp => SerialVESC.pid_update_normalized pc self sp
  | .set_pid_gains kP kD => SerialVESC.set_pid_gains pc self kP kD

/-- The object after a sequence of calls, first call first. -/
def runCalls (pc : PosControllerOps κ) (self : VESC κ) (calls : List Call) : VESC κ :=
  calls.foldl (Call.run pc) self

/-- Two angles are congruent modulo 360 degrees. -/
def CongrMod360 (x y : ℚ) : Prop :=
  ∃ k : ℤ, x - y = 360 * (k : ℚ)

/-- A controller without state whose command is always `0`; used to run the
methods on concrete inputs. -/
def nullController : PosControllerOps Unit where
  construct := fun _ _ => ()
  compute_command := fun _ _ _ => (0, ())
  set_gains := fun _ _ _ => ()

/-- A controller without state whose command is `-1` for a negative error,
`1` for a positive one and `0` otherwise. -/
def signController : PosControllerOps Unit where
  construct := fun _ _ => ()
  compute_command := fun _ e _ => (if e < 0 then -1 else if 0 < e then 1 else 0, ())
  set_gains := fun _ _ _ => ()

/-- Storage with every member zero, for building concrete objects. -/
def zeroMem : VESC Unit where
  encoder_offset := 0
  encoder_direction := 0
  max_current := 0
  time_last_angle_read := 0
  vesc_angle := 0
  true_degps := 0
  VESC_ENCODER_PERIOD := 0
  pos_controller := ()
  vesc_uart := []

/-! ## Auxiliary definitions used in the statements -/

/-- The truncated remainder `fmod(x, 360)`: it has the sign of `x`. -/
def fmod360 (x : ℚ) : ℚ :=
  x - 360 * ((if 0 ≤ x then ⌊x / 360⌋ else ⌈x / 360⌉ : ℤ) : ℚ)

/-- Modelled from the spec: `utils_norm_angle` read with the truncated
remainder, followed by one wrap of a negative result. -/
def norm_angle_trunc (x : ℚ) : ℚ :=
  if fmod360 x < 0 then fmod360 x + 360 else fmod360 x

/-- Modelled from the spec: `utils_angle_difference` read with the truncated
remainder. -/
def angle_difference_trunc (a b : ℚ) : ℚ :=
  let d := fmod360 (b - a)
  if d > 180 then d - 360
  else if d ≤ -180 then d + 360
  else d

/-- An object built with sample rate 1000 and attached with offset 10,
direction +1 and maximum current 5. -/
def scenarioStart : VESC Unit :=
  attach (VESC.construct nullController zeroMem 1000) 10 1 5

/-- The scenario object after the raw samples 350 and 355. -/
def scenarioState : VESC Unit :=
  update_angle (update_angle scenarioStart 350) 355

/-- The stored raw angle lies in [0, 360). -/
def AngleInRange (self : VESC κ) : Prop :=
  0 ≤ self.vesc_angle ∧ self.vesc_angle < 360

/-- The stored raw angle, the velocity estimate and the value of `read()` are
the same in `after` as in `before`. -/
def SameReading (before after : VESC κ) : Prop :=
  after.vesc_angle = before.vesc_angle ∧ after.true_degps = before.true_degps ∧
    read after = read before

/-- The command `pid_update(set_point)` computes: `max_current` times the
controller output for the shortest-path error and the stored velocity
estimate. -/
def pidCommand (pc : PosControllerOps κ) (self : VESC κ) (set_point : ℚ) : ℚ :=
  self.max_current *
    (pc.compute_command self.pos_controller
      (utils_angle_difference self.vesc_angle set_point) self.true_degps).1

/-! ## Facts about the helpers -/

theorem norm_floor_bounds (x : ℚ) :
    360 * ((⌊x / 360⌋ : ℤ) : ℚ) ≤ x ∧ x < 360 * ((⌊x / 360⌋ : ℤ) : ℚ) + 360 := by
  have h1 := Int.floor_le (x / 360)
  have h2 := Int.lt_floor_add_one (x / 360)
  have hx : x = 360 * (x / 360) := by ring
  constructor <;> linarith

theorem norm_nonneg (x : ℚ) : 0 ≤ utils_norm_angle x := by
  have h := (norm_floor_bounds x).1
  unfold utils_norm_angle
  linarith

theorem norm_lt (x : ℚ) : utils_norm_angle x < 360 := by
  have h := (norm_floor_bounds x).2
  unfold utils_norm_angle
  linarith

theorem norm_congr (x : ℚ) : CongrMod360 (utils_norm_angle x) x :=
  ⟨-⌊x / 360⌋, by unfold utils_norm_angle; push_cast; ring⟩

theorem congr_refl (x : ℚ) : CongrMod360 x x :=
  ⟨0, by simp⟩

theorem congr_symm {x y : ℚ} (h : CongrMod360 x y) : CongrMod360 y x := by
  obtain ⟨k, hk⟩ := h
  exact ⟨-k, by push_cast; linarith⟩

theorem congr_trans {x y z : ℚ} (h1 : CongrMod360 x y) (h2 : CongrMod360 y z) :
    CongrMod360 x z := by
  obtain ⟨k, hk⟩ := h1
  obtain ⟨j, hj⟩ := h2
  exact ⟨k + j, by push_cast; linarith⟩

theorem congr_add_right {x y : ℚ} (h : CongrMod360 x y) (c : ℚ) :
    CongrMod360 (x + c) (y + c) := by
  obtain ⟨k, hk⟩ := h
  exact ⟨k, by linarith⟩

theorem congr_sub_right {x y : ℚ} (h : CongrMod360 x y) (c : ℚ) :
    CongrMod360 (x - c) (y - c) := by
  obtain ⟨k, hk⟩ := h
  exact ⟨k, by linarith⟩

theorem congr_neg {x y : ℚ} (h : CongrMod360 x y) : CongrMod360 (-x) (-y) := by
  obtain ⟨k, hk⟩ := h
  exact ⟨-k, by push_cast; linarith⟩

/-- Two congruent angles that both lie in a half-open window of width 360 are
equal. -/
theorem congr_unique (lo : ℚ) {x y : ℚ} (h : CongrMod360 x y)
    (hx : lo ≤ x ∧ x < lo + 360) (hy : lo ≤ y ∧ y < lo + 360) : x = y := by
  obtain ⟨k, hk⟩ := h
  have hk1 : (k : ℚ) < 1 := by linarith [hx.2, hy.1]
  have hk2 : (-1 : ℚ) < k := by linarith [hx.1, hy.2]
  have hk1' : k < 1 := by exact_mod_cast hk1
  have hk2' : -1 < k := by exact_mod_cast hk2
  have hk0 : k = 0 := by omega
  subst hk0
  simp at hk
  linarith

/-- The same for a window that is open below and closed above. -/
theorem congr_unique_oc (lo : ℚ) {x y : ℚ} (h : CongrMod360 x y)
    (hx : lo < x ∧ x ≤ lo + 360) (hy : lo < y ∧ y ≤ lo + 360) : x = y := by
  obtain ⟨k, hk⟩ := h
  have hk1 : (k : ℚ) < 1 := by linarith [hx.2, hy.1]
  have hk2 : (-1 : ℚ) < k := by linarith [hx.1, hy.2]
  have hk1' : k < 1 := by exact_mod_cast hk1
  have hk2' : -1 < k := by exact_mod_cast hk2
  have hk0 : k = 0 := by omega
  subst hk0
  simp at hk
  linarith

theorem norm_eq_of_congr {x y : ℚ} (h : CongrMod360 x y) :
    utils_norm_angle x = utils_norm_angle y :=
  congr_unique 0
    (congr_trans (norm_congr x) (congr_trans h (congr_symm (norm_congr y))))
    ⟨norm_nonneg x, by simpa using norm_lt x⟩ ⟨norm_nonneg y, by simpa using norm_lt y⟩

theorem norm_of_mem {x : ℚ} (h0 : 0 ≤ x) (h1 : x < 360) : utils_norm_angle x = x :=
  congr_unique 0 (norm_congr x) ⟨norm_nonneg x, by simpa using norm_lt x⟩
    ⟨h0, by simpa using h1⟩

theorem norm_idem (x : ℚ) : utils_norm_angle (utils_norm_angle x) = utils_norm_angle x :=
  norm_of_mem (norm_nonneg x) (norm_lt x)

theorem diff_gt (a b : ℚ) : -180 < utils_angle_difference a b := by
  have h0 := norm_nonneg (b - a)
  unfold utils_angle_difference
  simp only
  split_ifs with h1 h2 <;> linarith

theorem diff_le (a b : ℚ) : utils_angle_difference a b ≤ 180 := by
  have h0 := norm_lt (b - a)
  unfold utils_angle_difference
  simp only
  split_ifs with h1 h2
  · linarith
  · linarith [norm_nonneg (b - a)]
  · linarith

theorem diff_congr (a b : ℚ) : CongrMod360 (utils_angle_difference a b) (b - a) := by
  obtain ⟨k, hk⟩ := norm_congr (b - a)
  unfold utils_angle_difference
  simp only
  split_ifs with h1 h2
  · exact ⟨k - 1, by push_cast; linarith⟩
  · exact ⟨k + 1, by push_cast; linarith⟩
  · exact ⟨k, hk⟩

/-- The difference is the only value in (-180, 180] congruent to `b - a`. -/
theorem diff_eq_of {a b u : ℚ} (h : CongrMod360 u (b - a)) (h1 : -180 < u) (h2 : u ≤ 180) :
    utils_angle_difference a b = u :=
  congr_unique_oc (-180) (congr_trans (diff_congr a b) (congr_symm h))
    ⟨diff_gt a b, by linarith [diff_le a b]⟩ ⟨h1, by linarith⟩

/-! ## The reading of the remainder does not matter

The helpers above read `mod 360` as the floored remainder. Reading it as the
truncated remainder of C (`fmod`) gives the same two functions. -/

theorem fmod360_congr (x : ℚ) : CongrMod360 (fmod360 x) x :=
  ⟨-(if 0 ≤ x then ⌊x / 360⌋ else ⌈x / 360⌉), by unfold fmod360; push_cast; ring⟩

theorem fmod360_bounds (x : ℚ) : -360 < fmod360 x ∧ fmod360 x < 360 := by
  have hx : x = 360 * (x / 360) := by ring
  unfold fmod360
  split_ifs with h
  · have h1 := Int.floor_le (x / 360)
    have h2 := Int.lt_floor_add_one (x / 360)
    constructor <;> linarith
  · have h1 := Int.le_ceil (x / 360)
    have h2 := Int.ceil_lt_add_one (x / 360)
    constructor <;> linarith

theorem norm_angle_trunc_eq (x : ℚ) : norm_angle_trunc x = utils_norm_angle x := by
  have hb := fmod360_bounds x
  have hc := fmod360_congr x
  have hn := congr_symm (norm_congr x)
  unfold norm_angle_trunc
  split_ifs with h
  · exact congr_unique 0
      (congr_trans (by obtain ⟨k, hk⟩ := hc; exact ⟨k + 1, by push_cast; linarith⟩) hn)
      ⟨by linarith, by linarith⟩ ⟨norm_nonneg x, by simpa using norm_lt x⟩
  · exact congr_unique 0 (congr_trans hc hn)
      ⟨by linarith, by linarith⟩ ⟨norm_nonneg x, by simpa using norm_lt x⟩

theorem angle_difference_trunc_eq (a b : ℚ) :
    angle_difference_trunc a b = utils_angle_difference a b := by
  have hb := fmod360_bounds (b - a)
  obtain ⟨k, hk⟩ := fmod360_congr (b - a)
  symm
  unfold angle_difference_trunc
  simp only
  split_ifs with h1 h2
  · exact diff_eq_of ⟨k - 1, by push_cast; linarith⟩ (by linarith) (by linarith)
  · exact diff_eq_of ⟨k + 1, by push_cast; linarith⟩ (by linarith) (by linarith)
  · exact diff_eq_of ⟨k, hk⟩ (by linarith) (by linarith)

/-- Swapping the two arguments negates the difference, up to re-wrapping: the
reflection through 0 is `utils_angle_difference x 0`. -/
theorem norm_diff_swapped (x : ℚ) :
    utils_norm_angle (utils_angle_difference x 0) = utils_norm_angle (-x) :=
  norm_eq_of_congr (by simpa using diff_congr x 0)

/-- With the arguments in the order `0, x` the difference is `x` re-wrapped. -/
theorem norm_diff_zero (x : ℚ) :
    utils_norm_angle (utils_angle_difference 0 x) = utils_norm_angle x :=
  norm_eq_of_congr (by simpa using diff_congr 0 x)

/-! ## Frame conversion -/

theorem to_normalized_congr (self : VESC κ) (x : ℚ) :
    CongrMod360 (vesc_to_normalized_angle self x) (x + self.encoder_offset) := by
  unfold vesc_to_normalized_angle
  simp only
  split_ifs with h
  · exact congr_trans (norm_congr _)
      (congr_add_right (by simpa using diff_congr 0 x) self.encoder_offset)
  · exact norm_congr _

theorem to_vesc_congr (self : VESC κ) (y : ℚ) :
    CongrMod360 (normalized_to_vesc_angle self y) (y - self.encoder_offset) := by
  unfold normalized_to_vesc_angle
  simp only
  split_ifs with h
  · exact congr_trans (norm_congr _) (by simpa using diff_congr 0 (y - self.encoder_offset))
  · exact norm_congr _

theorem to_normalized_range (self : VESC κ) (x : ℚ) :
    0 ≤ vesc_to_normalized_angle self x ∧ vesc_to_normalized_angle self x < 360 :=
  ⟨norm_nonneg _, norm_lt _⟩

theorem to_vesc_range (self : VESC κ) (y : ℚ) :
    0 ≤ normalized_to_vesc_angle self y ∧ normalized_to_vesc_angle self y < 360 :=
  ⟨norm_nonneg _, norm_lt _⟩

theorem round_trip_raw (self : VESC κ) (x : ℚ) :
    normalized_to_vesc_angle self (vesc_to_normalized_angle self x) = utils_norm_angle x := by
  have h1 := to_vesc_congr self (vesc_to_normalized_angle self x)
  have h2 := congr_sub_right (to_normalized_congr self x) self.encoder_offset
  have h3 : CongrMod360 (normalized_to_vesc_angle self (vesc_to_normalized_angle self x)) x := by
    have := congr_trans h1 h2
    simpa using this
  have hr := to_vesc_range self (vesc_to_normalized_angle self x)
  exact congr_unique 0 (congr_trans h3 (congr_symm (norm_congr x)))
    ⟨hr.1, by simpa using hr.2⟩ ⟨norm_nonneg x, by simpa using norm_lt x⟩

/-! ## Properties of the methods -/

/-- C1. Round trip: for every encoder offset, every encoder direction in
{+1, -1} and every angle `x`, converting `x` to the normalized frame and back
gives `normalize_angle(x)`, which is congruent to `x` modulo 360. -/
theorem C1_round_trip (self : VESC κ) (x : ℚ)
    (_hdir : self.encoder_direction = 1 ∨ self.encoder_direction = -1) :
    normalized_to_vesc_angle self (vesc_to_normalized_angle self x) = utils_norm_angle x ∧
      CongrMod360 (normalized_to_vesc_angle self (vesc_to_normalized_angle self x)) x := by
  refine ⟨round_trip_raw self x, ?_⟩
  rw [round_trip_raw]
  exact norm_congr x

/-- Witness of C1: offset 10, direction -1, raw angle 725. -/
theorem C1_round_trip_witness :
    ((attach zeroMem 10 (-1) 5).encoder_direction = 1 ∨
        (attach zeroMem 10 (-1) 5).encoder_direction = -1) ∧
      (normalized_to_vesc_angle (attach zeroMem 10 (-1) 5)
          (vesc_to_normalized_angle (attach zeroMem 10 (-1) 5) 725) = utils_norm_angle 725 ∧
        CongrMod360 (normalized_to_vesc_angle (attach zeroMem 10 (-1) 5)
          (vesc_to_normalized_angle (attach zeroMem 10 (-1) 5) 725)) 725) :=
  ⟨Or.inr rfl, C1_round_trip (attach zeroMem 10 (-1) 5) 725 (Or.inr rfl)⟩

theorem diff_1_359 : utils_angle_difference 1 359 = -2 := by
  norm_num [utils_angle_difference, utils_norm_angle]

theorem diff_359_1 : utils_angle_difference 359 1 = 2 := by
  norm_num [utils_angle_difference, utils_norm_angle]

/-- After attach(offset, +1, max_current), `read()` is
`normalize_angle(r + offset)` for the stored raw angle `r`. -/
theorem read_after_attach (self : VESC κ) (offset max_current : ℚ) :
    read (attach self offset 1 max_current) = utils_norm_angle (self.vesc_angle + offset) := by
  simp [read, vesc_to_normalized_angle, attach]

/-- After attach(offset, +1, max_current), `write(t)` hands the transport
exactly one command, the position `normalize_angle(t - offset)`. -/
theorem write_after_attach (self : VESC κ) (offset max_current t : ℚ) :
    (write (attach self offset 1 max_current) t).vesc_uart =
      self.vesc_uart ++ [Cmd.set_position (utils_norm_angle (t - offset))] := by
  simp [write, _send_position, normalized_to_vesc_angle, attach]

theorem construct_inRange (pc : PosControllerOps κ) (mem : VESC κ) (period : ℤ) :
    AngleInRange (VESC.construct pc mem period) := by
  simp [AngleInRange, VESC.construct]

theorem run_inRange (pc : PosControllerOps κ) (self : VESC κ) (c : Call)
    (h : AngleInRange self) : AngleInRange (Call.run pc self c) := by
  cases c with
  | update_angle a => exact ⟨norm_nonneg a, norm_lt a⟩
  | _ => exact h

theorem runCalls_inRange (pc : PosControllerOps κ) (calls : List Call) :
    ∀ self : VESC κ, AngleInRange self → AngleInRange (runCalls pc self calls) := by
  induction calls with
  | nil => intro self h; exact h
  | cons c cs ih =>
    intro self h
    exact ih (Call.run pc self c) (run_inRange pc self c h)

/-- C5. In every state reached from construction by any sequence of attach,
update_angle, read, write, write_current, write_pos_and_pid_gains, pid_update,
pid_update_normalized and set_pid_gains calls, the stored raw angle lies in
[0, 360). -/
theorem C5_angle_invariant (pc : PosControllerOps κ) (mem : VESC κ) (period : ℤ)
    (calls : List Call) :
    0 ≤ (runCalls pc (VESC.construct pc mem period) calls).vesc_angle ∧
      (runCalls pc (VESC.construct pc mem period) calls).vesc_angle < 360 :=
  runCalls_inRange pc calls _ (construct_inRange pc mem period)

/-- C6. For all `a` and `b`, `angle_difference(a, b)` lies in (-180, 180] and
is congruent to `b - a` modulo 360; `angle_difference(359, 1) = 2`,
`angle_difference(1, 359) = -2` and `angle_difference(0, 180) = 180`. -/
theorem C6_angle_difference (a b : ℚ) :
    (-180 < utils_angle_difference a b ∧ utils_angle_difference a b ≤ 180) ∧
      CongrMod360 (utils_angle_difference a b) (b - a) ∧
      utils_angle_difference 359 1 = 2 ∧
      utils_angle_difference 1 359 = -2 ∧
      utils_angle_difference 0 180 = 180 := by
  refine ⟨⟨diff_gt a b, diff_le a b⟩, diff_congr a b, diff_359_1, diff_1_359, ?_⟩
  norm_num [utils_angle_difference, utils_norm_angle]

/-- C7. For every `x`, `normalize_angle(x)` lies in [0, 360), is congruent to
`x` modulo 360, and normalizing twice is the same as normalizing once. -/
theorem C7_normalize (x : ℚ) :
    (0 ≤ utils_norm_angle x ∧ utils_norm_angle x < 360) ∧
      CongrMod360 (utils_norm_angle x) x ∧
      utils_norm_angle (utils_norm_angle x) = utils_norm_angle x :=
  ⟨⟨norm_nonneg x, norm_lt x⟩, norm_congr x, norm_idem x⟩

/-! ## Commands leave the reading alone -/

/-- C8. `write`, `write_current`, `write_pos_and_pid_gains`, `pid_update`,
`pid_update_normalized` and `read` leave the stored raw angle and the velocity
estimate unchanged, and `read()` returns the same value after any of them as
before, for every state and every argument. -/
theorem C8_commands_keep_reading (pc : PosControllerOps κ) (self : VESC κ) :
    (∀ deg, SameReading self (write self deg)) ∧
      (∀ current, SameReading self (write_current self current)) ∧
      (∀ kp ki kd pos, SameReading self (write_pos_and_pid_gains self kp ki kd pos)) ∧
      (∀ set_point, SameReading self (pid_update pc self set_point)) ∧
      (∀ set_point, SameReading self (pid_update_normalized pc self set_point)) ∧
      SameReading self (Call.run pc self Call.read) := by
  refine ⟨?_, ?_, ?_, ?_, ?_, ?_⟩ <;> intros <;> exact ⟨rfl, rfl, rfl⟩

/-! ## PID dispatch -/

theorem pid_update_trace (pc : PosControllerOps κ) (self : VESC κ) (set_point : ℚ) :
    (pid_update pc self set_point).vesc_uart =
      self.vesc_uart ++ [Cmd.set_current (pidCommand pc self set_point)] :=
  rfl

/-- C9. `pid_update(set_point)` hands the transport exactly one command, the
current `max_current * compute_command(error, velocity_estimate)` with
`error = angle_difference(current_raw_angle, set_point)`; the velocity
estimate is the one stored by the last `update_angle`; and
`pid_update_normalized(t)` does what `pid_update(normalized_to_vesc_angle(t))`
does. -/
theorem C9_pid_dispatch (pc : PosControllerOps κ) (self : VESC κ) (set_point s t : ℚ) :
    (pid_update pc self set_point).vesc_uart =
        self.vesc_uart ++ [Cmd.set_current (self.max_current *
          (pc.compute_command self.pos_controller
            (utils_angle_difference self.vesc_angle set_point) self.true_degps).1)] ∧
      (pid_update pc (update_angle self s) set_point).vesc_uart =
        self.vesc_uart ++ [Cmd.set_current (self.max_current *
          (pc.compute_command self.pos_controller
            (utils_angle_difference (utils_norm_angle s) set_point)
            (update_angle self s).true_degps).1)] ∧
      pid_update_normalized pc self t = pid_update pc self (normalized_to_vesc_angle self t) :=
  ⟨rfl, rfl, rfl⟩

/-- C10. For every state with `max_current ≥ 0` and every set point, if
`compute_command` returns a value in [-1, 1], the one current command that
`pid_update` dispatches has absolute value at most `max_current`. -/
theorem C10_command_bounded (pc : PosControllerOps κ) (self : VESC κ) (set_point : ℚ)
    (hmax : 0 ≤ self.max_current)
    (hcmd : -1 ≤ (pc.compute_command self.pos_controller
        (utils_angle_difference self.vesc_angle set_point) self.true_degps).1 ∧
      (pc.compute_command self.pos_controller
        (utils_angle_difference self.vesc_angle set_point) self.true_degps).1 ≤ 1) :
    ∃ c : ℚ, (pid_update pc self set_point).vesc_uart = self.vesc_uart ++ [Cmd.set_current c] ∧
      |c| ≤ self.max_current := by
  refine ⟨pidCommand pc self set_point, pid_update_trace pc self set_point, ?_⟩
  unfold pidCommand
  rw [abs_mul, abs_of_nonneg hmax]
  have h1 : |(pc.compute_command self.pos_controller
      (utils_angle_difference self.vesc_angle set_point) self.true_degps).1| ≤ 1 :=
    abs_le.mpr hcmd
  calc self.max_current * |(pc.compute_command self.pos_controller
          (utils_angle_difference self.vesc_angle set_point) self.true_degps).1|
      ≤ self.max_current * 1 := mul_le_mul_of_nonneg_left h1 hmax
    _ = self.max_current := mul_one _

/-- The output of the sign controller lies in [-1, 1]. -/
theorem sign_output_bounded (self : VESC Unit) (set_point : ℚ) :
    -1 ≤ (signController.compute_command self.pos_controller
        (utils_angle_difference self.vesc_angle set_point) self.true_degps).1 ∧
      (signController.compute_command self.pos_controller
        (utils_angle_difference self.vesc_angle set_point) self.true_degps).1 ≤ 1 := by
  simp only [signController]
  split_ifs <;> norm_num

/-- Witness of C10: the scenario object (maximum current 5), the sign
controller and the set point 100. -/
theorem C10_command_bounded_witness :
    0 ≤ scenarioState.max_current ∧
      (-1 ≤ (signController.compute_command scenarioState.pos_controller
          (utils_angle_difference scenarioState.vesc_angle 100) scenarioState.true_degps).1 ∧
        (signController.compute_command scenarioState.pos_controller
          (utils_angle_difference scenarioState.vesc_angle 100) scenarioState.true_degps).1 ≤ 1) ∧
      ∃ c : ℚ, (pid_update signController scenarioState 100).vesc_uart =
          scenarioState.vesc_uart ++ [Cmd.set_current c] ∧
        |c| ≤ scenarioState.max_current :=
  ⟨by simp [scenarioState, update_angle, scenarioStart, attach],
    sign_output_bounded scenarioState 100,
    C10_command_bounded signController scenarioState 100
      (by simp [scenarioState, update_angle, scenarioStart, attach])
      (sign_output_bounded scenarioState 100)⟩

/-! ## Direct writes -/

/-- C11. `write_current(amps)` hands the transport exactly one command, the
current `amps` itself, for every `amps` and every configuration: there is no
frame conversion and no clamping to `max_current`, also when `|amps|` exceeds
`max_current`; nothing else in the object changes. -/
theorem C11_write_current_direct (self : VESC κ) (amps : ℚ) :
    (write_current self amps).vesc_uart = self.vesc_uart ++ [Cmd.set_current amps] ∧
      write_current self amps = { self with vesc_uart := (write_current self amps).vesc_uart } ∧
      (write_current scenarioState 50).vesc_uart = [Cmd.set_current 50] ∧
      scenarioState.max_current = 5 := by
  refine ⟨rfl, rfl, ?_, ?_⟩
  · simp [write_current, _send_current, scenarioState, update_angle, scenarioStart, attach,
      VESC.construct]
  · simp [scenarioState, update_angle, scenarioStart, attach]

/-- C12, evaluated on the code. `write_pos_and_pid_gains(kp, ki, kd, pos)`
leaves the object as it was: no command reaches the transport and the
controller is not touched. On the scenario object,
`write_pos_and_pid_gains(1/10, 0, 1/100, 90)` leaves the trace of commands
empty. -/
theorem C12_write_pos_and_pid_gains_no_effect (self : VESC κ) (kp ki kd pos : ℚ) :
    write_pos_and_pid_gains self kp ki kd pos = self ∧
      (write_pos_and_pid_gains self kp ki kd pos).vesc_uart = self.vesc_uart ∧
      (write_pos_and_pid_gains self kp ki kd pos).pos_controller = self.pos_controller ∧
      (write_pos_and_pid_gains scenarioState (1 / 10) 0 (1 / 100) 90).vesc_uart = [] ∧
      (write scenarioState 90).vesc_uart ≠ [] := by
  refine ⟨rfl, rfl, rfl, ?_, ?_⟩
  · simp [write_pos_and_pid_gains, _send_position_pid_constants, scenarioState, update_angle,
      scenarioStart, attach, VESC.construct]
  · simp [write, _send_position]

/-- C13. For every stored raw angle, every offset and every value of the
encoder direction (also outside {+1, -1}), `read()` returns a value in
[0, 360), and for every target the one position `write` dispatches lies in
[0, 360). -/
theorem C13_normalized_range (self : VESC κ) (t : ℚ) :
    (0 ≤ read self ∧ read self < 360) ∧
      ∃ p : ℚ, (write self t).vesc_uart = self.vesc_uart ++ [Cmd.set_position p] ∧
        0 ≤ p ∧ p < 360 :=
  ⟨to_normalized_range self self.vesc_angle,
    normalized_to_vesc_angle self t, rfl, to_vesc_range self t⟩

/-! ## The first sample -/

/-- Immediately after construction the stored raw angle and the velocity
estimate are 0, whatever period is passed. -/
theorem construct_initial (pc : PosControllerOps κ) (mem : VESC κ) (period : ℤ) :
    (VESC.construct pc mem period).vesc_angle = 0 ∧
      (VESC.construct pc mem period).true_degps = 0 :=
  ⟨rfl, rfl⟩

theorem round_trip_normalized (self : VESC κ) (t : ℚ) :
    vesc_to_normalized_angle self (normalized_to_vesc_angle self t) = utils_norm_angle t := by
  have h1 := to_normalized_congr self (normalized_to_vesc_angle self t)
  have h2 := congr_add_right (to_vesc_congr self t) self.encoder_offset
  have h3 : CongrMod360 (vesc_to_normalized_angle self (normalized_to_vesc_angle self t)) t := by
    have := congr_trans h1 h2
    simpa using this
  have hr := to_normalized_range self (normalized_to_vesc_angle self t)
  exact congr_unique 0 (congr_trans h3 (congr_symm (norm_congr t)))
    ⟨hr.1, by simpa using hr.2⟩ ⟨norm_nonneg t, by simpa using norm_lt t⟩

theorem read_after_feedback (self : VESC κ) (t : ℚ) :
    read (update_angle (write self t) (normalized_to_vesc_angle self t)) = utils_norm_angle t := by
  have hr := to_vesc_range self t
  have hn : utils_norm_angle (normalized_to_vesc_angle self t) = normalized_to_vesc_angle self t :=
    norm_of_mem hr.1 hr.2
  have hread : read (update_angle (write self t) (normalized_to_vesc_angle self t)) =
      vesc_to_normalized_angle self (utils_norm_angle (normalized_to_vesc_angle self t)) := rfl
  rw [hread, hn]
  exact round_trip_normalized self t

/-- C15. For every configuration with encoder direction in {+1, -1} and every
target `t`, converting `t` to the encoder frame and back gives
`normalize_angle(t)`, which is congruent to `t` modulo 360; so when
`update_angle` is fed the raw position that `write(t)` dispatched, `read()`
returns `normalize_angle(t)`. -/
theorem C15_command_readback (self : VESC κ) (t : ℚ)
    (_hdir : self.encoder_direction = 1 ∨ self.encoder_direction = -1) :
    vesc_to_normalized_angle self (normalized_to_vesc_angle self t) = utils_norm_angle t ∧
      CongrMod360 (vesc_to_normalized_angle self (normalized_to_vesc_angle self t)) t ∧
      ∃ p : ℚ, (write self t).vesc_uart = self.vesc_uart ++ [Cmd.set_position p] ∧
        read (update_angle (write self t) p) = utils_norm_angle t := by
  refine ⟨round_trip_normalized self t, ?_, normalized_to_vesc_angle self t, rfl,
    read_after_feedback self t⟩
  rw [round_trip_normalized]
  exact norm_congr t

/-- Witness of C15: offset 10, direction -1, target 400. -/
theorem C15_command_readback_witness :
    ((attach zeroMem 10 (-1) 5).encoder_direction = 1 ∨
        (attach zeroMem 10 (-1) 5).encoder_direction = -1) ∧
      (vesc_to_normalized_angle (attach zeroMem 10 (-1) 5)
          (normalized_to_vesc_angle (attach zeroMem 10 (-1) 5) 400) = utils_norm_angle 400 ∧
        CongrMod360 (vesc_to_normalized_angle (attach zeroMem 10 (-1) 5)
          (normalized_to_vesc_angle (attach zeroMem 10 (-1) 5) 400)) 400 ∧
        ∃ p : ℚ, (write (attach zeroMem 10 (-1) 5) 400).vesc_uart =
            (attach zeroMem 10 (-1) 5).vesc_uart ++ [Cmd.set_position p] ∧
          read (update_angle (write (attach zeroMem 10 (-1) 5) 400) p) = utils_norm_angle 400) :=
  ⟨Or.inr rfl, C15_command_readback (attach zeroMem 10 (-1) 5) 400 (Or.inr rfl)⟩

/-! ## Velocity estimate: bound and periodicity -/

theorem diff_self (x : ℚ) : utils_angle_difference x x = 0 :=
  diff_eq_of ⟨0, by simp⟩ (by norm_num) (by norm_num)

theorem norm_add_turns (s : ℚ) (k : ℤ) :
    utils_norm_angle (s + 360 * (k : ℚ)) = utils_norm_angle s :=
  norm_eq_of_congr ⟨k, by ring⟩

theorem run_period (pc : PosControllerOps κ) (self : VESC κ) (c : Call) :
    (Call.run pc self c).VESC_ENCODER_PERIOD = self.VESC_ENCODER_PERIOD := by
  cases c <;> rfl

theorem runCalls_period (pc : PosControllerOps κ) (calls : List Call) :
    ∀ self : VESC κ, (runCalls pc self calls).VESC_ENCODER_PERIOD = self.VESC_ENCODER_PERIOD := by
  induction calls with
  | nil => intro self; rfl
  | cons c cs ih =>
    intro self
    exact (ih (Call.run pc self c)).trans (run_period pc self c)

theorem update_velocity_bound (self : VESC κ) (s : ℚ) :
    |(update_angle self s).true_degps| ≤ |(self.VESC_ENCODER_PERIOD : ℚ)| * 180 := by
  have hd : |utils_angle_difference (utils_norm_angle s) self.vesc_angle| ≤ 180 :=
    abs_le.mpr ⟨le_of_lt (diff_gt _ _), diff_le _ _⟩
  have hv : (update_angle self s).true_degps =
      (self.VESC_ENCODER_PERIOD : ℚ) *
        utils_angle_difference (utils_norm_angle s) self.vesc_angle := rfl
  rw [hv, abs_mul]
  exact mul_le_mul_of_nonneg_left hd (abs_nonneg _)

theorem update_twice_velocity (self : VESC κ) (s : ℚ) :
    (update_angle (update_angle self s) s).true_degps = 0 := by
  have hv : (update_angle (update_angle self s) s).true_degps =
      (self.VESC_ENCODER_PERIOD : ℚ) *
        utils_angle_difference (utils_norm_angle s) (utils_norm_angle s) := rfl
  rw [hv, diff_self, mul_zero]

/-- C16. In every state reached from construction by any sequence of calls,
after an `update_angle` call the velocity estimate `v` satisfies
`|v| ≤ |VESC_ENCODER_PERIOD| * 180`, with `VESC_ENCODER_PERIOD` the period the
constructor was given, and feeding the same sample twice in a row gives the
velocity estimate 0. -/
theorem C16_velocity_bound (pc : PosControllerOps κ) (mem : VESC κ) (period : ℤ)
    (calls : List Call) (s : ℚ) :
    |(update_angle (runCalls pc (VESC.construct pc mem period) calls) s).true_degps| ≤
        |(period : ℚ)| * 180 ∧
      (update_angle (update_angle (runCalls pc (VESC.construct pc mem period) calls) s)
        s).true_degps = 0 := by
  refine ⟨?_, update_twice_velocity _ s⟩
  have h := update_velocity_bound (runCalls pc (VESC.construct pc mem period) calls) s
  rw [runCalls_period] at h
  exact h

/-- C17. For every state, every sample `s` and every integer `k`,
`update_angle(s + 360 * k)` produces the same stored raw angle and the same
velocity estimate as `update_angle(s)`. -/
theorem C17_update_periodic (self : VESC κ) (s : ℚ) (k : ℤ) :
    (update_angle self (s + 360 * (k : ℚ))).vesc_angle = (update_angle self s).vesc_angle ∧
      (update_angle self (s + 360 * (k : ℚ))).true_degps = (update_angle self s).true_degps := by
  have hn := norm_add_turns s k
  have ha : (update_angle self (s + 360 * (k : ℚ))).vesc_angle =
      utils_norm_angle (s + 360 * (k : ℚ)) := rfl
  have hv : (update_angle self (s + 360 * (k : ℚ))).true_degps =
      (self.VESC_ENCODER_PERIOD : ℚ) *
        utils_angle_difference (utils_norm_angle (s + 360 * (k : ℚ))) self.vesc_angle := rfl
  rw [ha, hv, hn]
  exact ⟨rfl, rfl⟩

end SerialVESC
